import Mathlib

/-!
Verification of the Basic_Transformer vision-transformer model (src/model.py).

The model is shallow-embedded over the real numbers: tensors become functions
out of `Fin`, the per-(batch, head) slices of batched torch operations become
pointwise applications of the per-slice function (every operation involved —
elementwise ops, batched matmul, softmax over the last axis, the broadcast
lower-triangular mask — acts independently on each leading-dimension slice),
and `torch.softmax`'s max-subtraction stabilisation is dropped, which is
algebraically neutral over ℝ.  Dropout layers carry their random zeroing
decisions as an explicit multiplier tensor (all ones at inference).
-/

namespace BasicTransformer

open Finset

/-- `torch.softmax` along the last axis: `softmax s j = exp (s j) / Σ exp (s j')`.
(The implementation's max-subtraction changes nothing over ℝ.) -/
noncomputable def softmax {L : ℕ} (s : Fin L → ℝ) (j : Fin L) : ℝ :=
  Real.exp (s j) / ∑ j' : Fin L, Real.exp (s j')

/-- `Self_Attention.forward`, line 125: raw scores
`attention_weights = torch.matmul(q, k.transpose(-2, -1)) / math.sqrt(d_k)`
for one (batch, head) slice; `d_k = q.size(-1) = D`. -/
noncomputable def rawScores {L D : ℕ} (q k : Fin L → Fin D → ℝ) :
    Fin L → Fin L → ℝ :=
  fun i j => (∑ d : Fin D, q i d * k j d) / Real.sqrt (D : ℝ)

/-- `Self_Attention.forward`, line 128: the source/padding mask
`mask = attention_weights != padding` with `padding = 0`. -/
def padMask {L : ℕ} (w : Fin L → Fin L → ℝ) (i j : Fin L) : Prop :=
  w i j ≠ 0

/-- `Self_Attention.forward`, line 133: the lower-triangular (inclusive) target
mask `torch.tril(torch.ones([1, L, L])).bool()`: entry `(i, j)` is true iff
`j ≤ i`. -/
def trilMask {L : ℕ} (i j : Fin L) : Prop :=
  (j : ℕ) ≤ (i : ℕ)

/-- `Self_Attention.forward`, lines 128–133: the combined mask — the padding
mask alone, AND-ed with the lower-triangular mask when `is_masked` is set. -/
def combinedMask {L : ℕ} (w : Fin L → Fin L → ℝ) (isMasked : Bool)
    (i j : Fin L) : Prop :=
  if isMasked then trilMask i j ∧ padMask w i j else padMask w i j

open Classical in
/-- `Self_Attention.forward`, line 135:
`attention_weights.masked_fill(mask == 0, -1e9)` — every position the combined
mask rejects is overwritten with the sentinel `-1e9`. -/
noncomputable def maskedScores {L : ℕ} (w : Fin L → Fin L → ℝ)
    (isMasked : Bool) (i j : Fin L) : ℝ :=
  if combinedMask w isMasked i j then w i j else -1e9

/-- `Self_Attention.forward`, line 137: softmax of the masked scores along the
last axis. -/
noncomputable def attnProbs {L D : ℕ} (q k : Fin L → Fin D → ℝ)
    (isMasked : Bool) (i : Fin L) : Fin L → ℝ :=
  softmax (maskedScores (rawScores q k) isMasked i)

/-- `Self_Attention.forward` (src/model.py lines 122–138) on one
(batch, head) slice: masked scaled-dot-product attention, returning
`probabilities @ v`. -/
noncomputable def selfAttentionForward {L D : ℕ} (q k v : Fin L → Fin D → ℝ)
    (isMasked : Bool) (i : Fin L) (d : Fin D) : ℝ :=
  ∑ j : Fin L, attnProbs q k isMasked i j * v j d

/-- `Self_Attention.forward` on a full `[batch, heads, seq_len, d_key]`
tensor: every torch operation in the body acts independently on each
(batch, head) slice, so the batched forward is the slice-wise forward. -/
noncomputable def selfAttentionBatched {B H L D : ℕ}
    (q k v : Fin B → Fin H → Fin L → Fin D → ℝ) (isMasked : Bool) :
    Fin B → Fin H → Fin L → Fin D → ℝ :=
  fun b h => selfAttentionForward (q b h) (k b h) (v b h) isMasked

open Classical in
/-- The attention core as the specification words it (§4.1): raw scores
`S = Q·Kᵗ / sqrt d_key`; a position is attendable iff `S ≠ 0` and, when
`causal`, its column index is at most its row index; non-attendable scores
are replaced by the sentinel `-1e9`; softmax along the last axis; multiply
by `V`. -/
noncomputable def specAttentionCore {L D : ℕ} (q k v : Fin L → Fin D → ℝ)
    (causal : Bool) (i : Fin L) (d : Fin D) : ℝ :=
  let S : Fin L → Fin L → ℝ :=
    fun i j => (∑ x : Fin D, q i x * k j x) / Real.sqrt (D : ℝ)
  let attendable : Fin L → Fin L → Prop :=
    fun i j => S i j ≠ 0 ∧ (causal = true → (j : ℕ) ≤ (i : ℕ))
  ∑ j : Fin L,
    softmax (fun j' => if attendable i j' then S i j' else -1e9) j * v j d

/-- The spec-worded attention core applied slice-wise to a batched tensor. -/
noncomputable def specAttentionCoreBatched {B H L D : ℕ}
    (q k v : Fin B → Fin H → Fin L → Fin D → ℝ) (causal : Bool) :
    Fin B → Fin H → Fin L → Fin D → ℝ :=
  fun b h => specAttentionCore (q b h) (k b h) (v b h) causal

/-- The combined mask accepts `(i, j)` iff the raw score there is nonzero
and, when the causal flag is set, `j ≤ i`. -/
theorem combinedMask_iff {L : ℕ} (w : Fin L → Fin L → ℝ) (m : Bool)
    (i j : Fin L) :
    combinedMask w m i j ↔ (w i j ≠ 0 ∧ (m = true → (j : ℕ) ≤ (i : ℕ))) := by
  cases m <;> simp [combinedMask, padMask, trilMask, and_comm]

/-- C1: the attention core computes `S = Q·Kᵗ / √d_key`, marks exactly the
positions with `S ≠ 0` as attendable, additionally requires column ≤ row when
causal (combined by AND), fills non-attendable positions with the sentinel
`-1e9`, softmaxes along the last axis and multiplies by `V` — i.e. the
source forward equals the spec-worded core on every batched input. -/
theorem selfAttention_eq_specAttentionCore {B H L D : ℕ}
    (q k v : Fin B → Fin H → Fin L → Fin D → ℝ) (causal : Bool) :
    selfAttentionBatched q k v causal = specAttentionCoreBatched q k v causal := by
  funext b h i d
  unfold selfAttentionBatched specAttentionCoreBatched selfAttentionForward
    specAttentionCore attnProbs
  have hms : maskedScores (rawScores (q b h) (k b h)) causal i =
      fun j' : Fin L =>
        if rawScores (q b h) (k b h) i j' ≠ 0 ∧
            (causal = true → (j' : ℕ) ≤ (i : ℕ)) then
          rawScores (q b h) (k b h) i j' else -1e9 := by
    funext j'
    unfold maskedScores
    by_cases hc : combinedMask (rawScores (q b h) (k b h)) causal i j'
    · rw [if_pos hc, if_pos ((combinedMask_iff _ _ _ _).mp hc)]
    · rw [if_neg hc, if_neg (fun hx => hc ((combinedMask_iff _ _ _ _).mpr hx))]
  rw [hms]
  rfl

/-! ### Positivity of softmax and helper facts about the mask -/

/-- Softmax probabilities are strictly positive (a sum of exponentials is
positive as soon as the index type is inhabited). -/
theorem softmax_pos {L : ℕ} (s : Fin L → ℝ) (j : Fin L) : 0 < softmax s j := by
  unfold softmax
  refine div_pos (Real.exp_pos _) ?_
  exact Finset.sum_pos (fun j' _ => Real.exp_pos _) ⟨j, Finset.mem_univ j⟩

/-- Under the causal mask, every strictly-upper-triangular position holds the
sentinel `-1e9`, whatever the raw scores are. -/
theorem maskedScores_of_lt {L : ℕ} (w : Fin L → Fin L → ℝ) (i j : Fin L)
    (hij : (i : ℕ) < (j : ℕ)) : maskedScores w true i j = -1e9 := by
  unfold maskedScores
  rw [if_neg]
  intro hc
  rw [combinedMask_iff] at hc
  exact absurd (hc.2 rfl) (not_le.mpr hij)

/-- When a whole row of raw scores vanishes, every position of that row is
masked and holds the sentinel. -/
theorem maskedScores_of_zero_row {L : ℕ} (w : Fin L → Fin L → ℝ) (m : Bool)
    (i : Fin L) (h : ∀ j, w i j = 0) (j : Fin L) :
    maskedScores w m i j = -1e9 := by
  unfold maskedScores
  rw [if_neg]
  intro hc
  rw [combinedMask_iff] at hc
  exact hc.1 (h j)

/-- C7: a fully-masked attention row (all raw scores zero) is not an error:
the softmax over that row is uniform, every probability is `1 / seq_len`, and
the output row is the arithmetic mean of `V`'s rows.  Holds for either value
of the causal flag. -/
theorem allMaskedRow_uniform {L D : ℕ} (q k v : Fin L → Fin D → ℝ) (m : Bool)
    (i : Fin L) (h : ∀ j, rawScores q k i j = 0) :
    (∀ j, attnProbs q k m i j = 1 / (L : ℝ)) ∧
    (∀ d, selfAttentionForward q k v m i d = (∑ j : Fin L, v j d) / (L : ℝ)) := by
  have hrow : ∀ j, maskedScores (rawScores q k) m i j = -1e9 :=
    maskedScores_of_zero_row _ m i h
  have hL : (0 : ℝ) < (L : ℝ) := by
    have : 0 < L := i.pos
    exact_mod_cast this
  have hprob : ∀ j, attnProbs q k m i j = 1 / (L : ℝ) := by
    intro j
    unfold attnProbs softmax
    rw [hrow j]
    have hden : (∑ j' : Fin L, Real.exp (maskedScores (rawScores q k) m i j'))
        = (L : ℝ) * Real.exp (-1e9) := by
      rw [Finset.sum_congr rfl (fun j' _ => by rw [hrow j'])]
      rw [Finset.sum_const, Finset.card_univ, Fintype.card_fin, nsmul_eq_mul]
    rw [hden, mul_comm, div_mul_eq_div_div,
      div_self (Real.exp_ne_zero _)]
  refine ⟨hprob, fun d => ?_⟩
  unfold selfAttentionForward
  rw [Finset.sum_congr rfl (fun j _ => by rw [hprob j])]
  rw [Finset.sum_congr rfl (fun j _ => one_div_mul_eq_div _ _),
    ← Finset.sum_div]

/-- C2 (amended): exact dependence of a causal output row on later `V` rows.
If `v` and `v'` agree at all positions `≤ i`, the difference of outputs at
row `i` equals the sentinel softmax weight `exp (-1e9) / Z i` — `Z i` the
row's softmax normaliser, which does not depend on `V` — times the summed
perturbation at positions `> i`.  The coefficient is strictly positive, so
the output is *not* exactly invariant (it only becomes so in floating point,
where `exp (-1e9)` underflows to zero). -/
theorem causal_output_perturbation {L D : ℕ} (q k v v' : Fin L → Fin D → ℝ)
    (i : Fin L) (h : ∀ j : Fin L, (j : ℕ) ≤ (i : ℕ) → v j = v' j) (d : Fin D) :
    selfAttentionForward q k v true i d - selfAttentionForward q k v' true i d =
      Real.exp (-1e9) /
        (∑ j' : Fin L, Real.exp (maskedScores (rawScores q k) true i j')) *
      ∑ j ∈ Finset.univ.filter (fun j : Fin L => (i : ℕ) < (j : ℕ)),
        (v j d - v' j d) := by
  unfold selfAttentionForward
  rw [← Finset.sum_sub_distrib]
  rw [Finset.sum_congr rfl
    (fun j _ => (mul_sub (attnProbs q k true i j) (v j d) (v' j d)).symm)]
  have hfilter : ∀ j ∈ Finset.univ,
      attnProbs q k true i j * (v j d - v' j d) ≠ 0 → (i : ℕ) < (j : ℕ) := by
    intro j _ hne
    by_contra hle
    apply hne
    rw [h j (not_lt.mp hle)]
    ring
  rw [← Finset.sum_filter_of_ne hfilter]
  rw [Finset.mul_sum]
  refine Finset.sum_congr rfl (fun j hj => ?_)
  have hij : (i : ℕ) < (j : ℕ) := (Finset.mem_filter.mp hj).2
  have hp : attnProbs q k true i j =
      Real.exp (-1e9) /
        (∑ j' : Fin L, Real.exp (maskedScores (rawScores q k) true i j')) := by
    unfold attnProbs softmax
    rw [maskedScores_of_lt _ _ _ hij]
  rw [hp]

/-- Concrete all-ones query/key slice of shape `2 × 1`. -/
def onesQK : Fin 2 → Fin 1 → ℝ := fun _ _ => 1

/-- Concrete all-zero value slice of shape `2 × 1`. -/
def vZero : Fin 2 → Fin 1 → ℝ := fun _ _ => 0

/-- Value slice equal to `vZero` at row 0 and perturbed (by 1) at row 1. -/
def vUnit : Fin 2 → Fin 1 → ℝ := fun j _ => if (j : ℕ) = 0 then 0 else 1

/-- C2 (counterexample): with `causal = true`, perturbing `V` only at sequence
position `1 > 0` changes the output at position `0` — the sentinel `-1e9`
leaves position 1 a strictly positive softmax weight in exact arithmetic, so
the claimed invariance fails as stated. -/
theorem causal_invariance_fails :
    vZero 0 = vUnit 0 ∧
    selfAttentionForward onesQK onesQK vZero true 0 0 ≠
      selfAttentionForward onesQK onesQK vUnit true 0 0 := by
  constructor
  · funext d
    simp [vZero, vUnit]
  · have hzero : selfAttentionForward onesQK onesQK vZero true 0 0 = 0 := by
      unfold selfAttentionForward
      simp [vZero]
    have hpos : 0 < selfAttentionForward onesQK onesQK vUnit true 0 0 := by
      unfold selfAttentionForward
      rw [Fin.sum_univ_two]
      have h0 : vUnit 0 0 = 0 := by simp [vUnit]
      have h1 : vUnit 1 0 = 1 := by simp [vUnit]
      rw [h0, h1, mul_zero, mul_one, zero_add]
      exact softmax_pos _ _
    rw [hzero]
    exact ne_of_lt hpos

/-- C2 (witness for the amended theorem): at the concrete 2×1 slices above —
`v` and `v'` agreeing at position 0 — the output difference at row 0 is
exactly the sentinel weight times the perturbation at position 1. -/
theorem causal_output_perturbation_witness :
    (∀ j : Fin 2, (j : ℕ) ≤ ((0 : Fin 2) : ℕ) → vZero j = vUnit j) ∧
    selfAttentionForward onesQK onesQK vZero true 0 0 -
        selfAttentionForward onesQK onesQK vUnit true 0 0 =
      Real.exp (-1e9) /
        (∑ j' : Fin 2, Real.exp (maskedScores (rawScores onesQK onesQK) true 0 j')) *
      ∑ j ∈ Finset.univ.filter (fun j : Fin 2 => ((0 : Fin 2) : ℕ) < (j : ℕ)),
        (vZero j 0 - vUnit j 0) := by
  have h : ∀ j : Fin 2, (j : ℕ) ≤ ((0 : Fin 2) : ℕ) → vZero j = vUnit j := by
    intro j hj
    funext d
    fin_cases j
    · simp [vZero, vUnit]
    · simp at hj
  exact ⟨h, causal_output_perturbation onesQK onesQK vZero vUnit 0 h 0⟩

/-- Concrete all-zero query slice: every raw score of every row is zero, so
every attention row is fully masked. -/
def qZero : Fin 2 → Fin 1 → ℝ := fun _ _ => 0

/-- Concrete value slice with rows `3` and `5`. -/
def vThreeFive : Fin 2 → Fin 1 → ℝ := fun j _ => if (j : ℕ) = 0 then 3 else 5

/-- C7 (witness): with an all-zero query the raw-score row at position 0 is
identically zero, the softmax there is uniform (`1/2` each) and the output is
the mean of `V`'s rows. -/
theorem allMaskedRow_uniform_witness :
    rawScores qZero onesQK 0 0 = 0 ∧ rawScores qZero onesQK 0 1 = 0 ∧
    attnProbs qZero onesQK false 0 0 = 1 / 2 ∧
    selfAttentionForward qZero onesQK vThreeFive false 0 0 =
      (∑ j : Fin 2, vThreeFive j 0) / 2 := by
  have h : ∀ j : Fin 2, rawScores qZero onesQK 0 j = 0 := by
    intro j
    simp [rawScores, qZero]
  have hmain := allMaskedRow_uniform qZero onesQK vThreeFive false 0 h
  refine ⟨h 0, h 1, ?_, ?_⟩
  · have := hmain.1 0
    rw [this]
    norm_num
  · have := hmain.2 0
    rw [this]
    norm_num

/-! ### Patch embedding (`Patch_Embedding`, src/model.py lines 143–166)

Images are channel-indexed functions on ℕ × ℕ grid coordinates; the spatial
shape `(H, W)` of the tensor is passed alongside, and a faithful embedding of
the torch operations below only ever reads coordinates inside the shape. -/

/-- The parameters of a constructed `Patch_Embedding` module: the strided
`Conv2d` kernel and bias (line 151), the learned positional table of length
`N = (img_side_len // patch_size)^2 + 1` (lines 148, 152), the learned class
token (line 153), and the dropout layer's multiplicative decision mask
(line 154; all ones at inference). -/
structure PatchEmbedParams (p C E N : ℕ) where
  convW : Fin E → Fin C → Fin p → Fin p → ℝ
  convB : Fin E → ℝ
  posEnc : Fin N → Fin E → ℝ
  classTok : Fin E → ℝ
  dropMask : Fin N → Fin E → ℝ

/-- `Patch_Embedding.forward`, line 157: the strided conv with kernel size and
stride both `patch_size`: output channel `e` at patch-grid cell `(i, j)` reads
the `p × p` input block at rows `i*p + a`, columns `j*p + b`. -/
def convPatch {p C E N : ℕ} (P : PatchEmbedParams p C E N)
    (x : Fin C → ℕ → ℕ → ℝ) (i j : ℕ) (e : Fin E) : ℝ :=
  P.convB e + ∑ c : Fin C, ∑ a : Fin p, ∑ b : Fin p,
    P.convW e c a b * x c (i * p + a) (j * p + b)

/-- `Patch_Embedding.forward`, lines 158–165: flatten the patch grid row-major
(`torch.flatten(x, 2)`), transpose, prepend the class token at index 0, add
the positional table, apply dropout (as its decision mask).  Token `t ≥ 1`
holds patch `(row, col) = ((t-1) / (W/p), (t-1) % (W/p))`. -/
def patchEmbedTokens {p C E N : ℕ} (P : PatchEmbedParams p C E N) (W : ℕ)
    (x : Fin C → ℕ → ℕ → ℝ) (t : Fin N) (e : Fin E) : ℝ :=
  P.dropMask t e *
    ((if (t : ℕ) = 0 then P.classTok e
      else convPatch P x (((t : ℕ) - 1) / (W / p)) (((t : ℕ) - 1) % (W / p)) e)
      + P.posEnc t e)

/-- `Patch_Embedding.forward` (lines 156–166) on an input of spatial shape
`(H, W)`.  torch raises when the conv kernel exceeds a spatial dim
(`H < p` or `W < p`, "output size too small") and when the produced token
count `(H/p)·(W/p) + 1` cannot broadcast against the positional table of
length `N` (line 164); otherwise the pass succeeds, the strided conv silently
discarding the trailing `H mod p` rows and `W mod p` columns.  (The
degenerate broadcast of a length-1 positional table — only produced by a
construction with `img_side_len < patch_size` — is outside the modelled
range; every theorem below therefore assumes `2 ≤ N`.) -/
def patchEmbedForward {p C E N : ℕ} (P : PatchEmbedParams p C E N)
    (H W : ℕ) (x : Fin C → ℕ → ℕ → ℝ) : Option (Fin N → Fin E → ℝ) :=
  if 0 < p ∧ p ≤ H ∧ p ≤ W ∧ (H / p) * (W / p) + 1 = N then
    some (patchEmbedTokens P W x)
  else none

/-- C3 (amended): shape-contract violations do not uniformly fail fast.  The
forward pass succeeds exactly when both sides fit at least one patch and the
truncated patch count `(H/p)·(W/p) + 1` happens to equal the positional-table
length — the divisibility and squareness of the input are never checked — and
on success the result reads only the leading `(H/p)·p` rows and `(W/p)·p`
columns: the remainder of the image is silently discarded. -/
theorem patchEmbed_shape_violation_behavior {p C E N : ℕ}
    (P : PatchEmbedParams p C E N) (H W : ℕ) (x x' : Fin C → ℕ → ℕ → ℝ)
    (hN : 2 ≤ N) :
    ((patchEmbedForward P H W x).isSome ↔
      (0 < p ∧ p ≤ H ∧ p ≤ W ∧ (H / p) * (W / p) + 1 = N)) ∧
    ((∀ c i j, i < (H / p) * p → j < (W / p) * p → x c i j = x' c i j) →
      patchEmbedForward P H W x = patchEmbedForward P H W x') := by
  constructor
  · unfold patchEmbedForward
    by_cases hg : 0 < p ∧ p ≤ H ∧ p ≤ W ∧ (H / p) * (W / p) + 1 = N
    · rw [if_pos hg]
      simpa using hg
    · rw [if_neg hg]
      simpa using hg
  · intro hagree
    unfold patchEmbedForward
    by_cases hg : 0 < p ∧ p ≤ H ∧ p ≤ W ∧ (H / p) * (W / p) + 1 = N
    · rw [if_pos hg, if_pos hg]
      congr 1
      funext t e
      unfold patchEmbedTokens
      by_cases ht : (t : ℕ) = 0
      · rw [if_pos ht, if_pos ht]
      · rw [if_neg ht, if_neg ht]
        unfold convPatch
        have hWp : 0 < W / p := Nat.div_pos hg.2.2.1 hg.1
        have htlt : (t : ℕ) - 1 < (H / p) * (W / p) := by
          have h1 : (t : ℕ) < (H / p) * (W / p) + 1 := by
            rw [hg.2.2.2]
            exact t.isLt
          generalize (H / p) * (W / p) = A at h1 ⊢
          omega
        have hrow : ((t : ℕ) - 1) / (W / p) < H / p :=
          (Nat.div_lt_iff_lt_mul hWp).mpr htlt
        have hcol : ((t : ℕ) - 1) % (W / p) < W / p := Nat.mod_lt _ hWp
        have hx : ∀ (c : Fin C) (a : Fin p) (b : Fin p),
            x c (((t : ℕ) - 1) / (W / p) * p + (a : ℕ))
              (((t : ℕ) - 1) % (W / p) * p + (b : ℕ)) =
            x' c (((t : ℕ) - 1) / (W / p) * p + (a : ℕ))
              (((t : ℕ) - 1) % (W / p) * p + (b : ℕ)) := by
          intro c a b
          apply hagree
          · calc ((t : ℕ) - 1) / (W / p) * p + (a : ℕ)
                < (((t : ℕ) - 1) / (W / p) + 1) * p := by
                  rw [Nat.succ_mul]
                  exact Nat.add_lt_add_left a.isLt _
              _ ≤ (H / p) * p := Nat.mul_le_mul_right p hrow
          · calc ((t : ℕ) - 1) % (W / p) * p + (b : ℕ)
                < (((t : ℕ) - 1) % (W / p) + 1) * p := by
                  rw [Nat.succ_mul]
                  exact Nat.add_lt_add_left b.isLt _
              _ ≤ (W / p) * p := Nat.mul_le_mul_right p hcol
        simp only [hx]
    · rw [if_neg hg, if_neg hg]

/-- A concrete constructed `Patch_Embedding`: `img_side_len = 8`,
`patch_size = 4`, one channel, `embed_dim = 1`, table length
`(8/4)^2 + 1 = 5`; eval-mode dropout. -/
def cexPatchParams : PatchEmbedParams 4 1 1 5 where
  convW := fun _ _ _ _ => 1
  convB := fun _ => 0
  posEnc := fun _ _ => 0
  classTok := fun _ => 0
  dropMask := fun _ _ => 1

/-- The all-zero test image. -/
def xZeroIm : Fin 1 → ℕ → ℕ → ℝ := fun _ _ _ => 0

/-- A test image that is zero except at pixel `(9, 9)` — a pixel that only
exists because the 10×10 input violates the 8×8 shape contract. -/
def xNine : Fin 1 → ℕ → ℕ → ℝ := fun _ i j => if i = 9 ∧ j = 9 then 1 else 0

/-- C3 (counterexample): a 10×10 input violates the divisibility contract
(`10 % 4 ≠ 0`) of the module built for 8×8 images with `patch_size = 4`, yet
the forward pass does **not** fail: the strided conv floors `10/4` to the
expected `2×2` patch grid and the pass returns a value. -/
theorem patchEmbed_does_not_fail_fast :
    ¬ (10 % 4 = 0) ∧ (patchEmbedForward cexPatchParams 10 10 xNine).isSome = true := by
  constructor
  · norm_num
  · unfold patchEmbedForward
    rw [if_pos (by norm_num)]
    rfl

/-- C3 (witness for the amended theorem): on the 10×10 input, success of the
forward pass coincides with the truncated-patch-count condition, and the
pass ignores the pixel at `(9, 9)`: the image with that pixel set gives the
very same output as the all-zero image. -/
theorem patchEmbed_shape_violation_behavior_witness :
    (2 ≤ 5) ∧
    ((patchEmbedForward cexPatchParams 10 10 xNine).isSome ↔
      (0 < 4 ∧ 4 ≤ 10 ∧ 4 ≤ 10 ∧ (10 / 4) * (10 / 4) + 1 = 5)) ∧
    patchEmbedForward cexPatchParams 10 10 xNine =
      patchEmbedForward cexPatchParams 10 10 xZeroIm := by
  have h := patchEmbed_shape_violation_behavior cexPatchParams 10 10 xNine
    xZeroIm (by norm_num)
  refine ⟨by norm_num, h.1, h.2 ?_⟩
  intro c i j hi hj
  unfold xNine xZeroIm
  rw [if_neg]
  intro hc
  omega

/-- C5: on a contract-respecting `(k·p) × (k·p)` input of the module built
for that side length (table length `k² + 1`), with eval-mode dropout, the
output is the token sequence of length `k² + 1` whose index 0 is the class
token and whose index `1 + r·k + c` is the conv projection of patch
`(r, c)` — row-major — each with the positional table added elementwise. -/
theorem patchEmbed_rowmajor {p C E k : ℕ}
    (P : PatchEmbedParams p C E (k ^ 2 + 1)) (x : Fin C → ℕ → ℕ → ℝ)
    (hp : 0 < p) (hk : 0 < k) (hdrop : ∀ t e, P.dropMask t e = 1) :
    patchEmbedForward P (k * p) (k * p) x =
      some (fun (t : Fin (k ^ 2 + 1)) (e : Fin E) =>
        (if (t : ℕ) = 0 then P.classTok e
         else P.convB e + ∑ c : Fin C, ∑ a : Fin p, ∑ b : Fin p,
           P.convW e c a b *
             x c ((((t : ℕ) - 1) / k) * p + (a : ℕ))
               ((((t : ℕ) - 1) % k) * p + (b : ℕ)))
        + P.posEnc t e) := by
  have hdiv : k * p / p = k := by
    rw [Nat.mul_div_assoc k (dvd_refl p), Nat.div_self hp, Nat.mul_one]
  have hcond : 0 < p ∧ p ≤ k * p ∧ p ≤ k * p ∧
      (k * p / p) * (k * p / p) + 1 = k ^ 2 + 1 := by
    have hle : p ≤ k * p := by
      calc p = 1 * p := (Nat.one_mul p).symm
        _ ≤ k * p := Nat.mul_le_mul_right p hk
    refine ⟨hp, hle, hle, ?_⟩
    rw [hdiv]
    ring
  unfold patchEmbedForward
  rw [if_pos hcond]
  congr 1
  funext t e
  unfold patchEmbedTokens convPatch
  rw [hdrop t e, one_mul, hdiv]

/-- A concrete constructed `Patch_Embedding` for C5's witness:
`patch_size = 1`, `k = 2`, table length `2² + 1 = 5`. -/
def w5PatchParams : PatchEmbedParams 1 1 1 5 where
  convW := fun _ _ _ _ => 1
  convB := fun _ => 0
  posEnc := fun t _ => (t : ℕ)
  classTok := fun _ => 7
  dropMask := fun _ _ => 1

/-- A concrete 2×2 test image with pairwise distinct pixel values. -/
def xGrid : Fin 1 → ℕ → ℕ → ℝ := fun _ i j => (10 * i + j : ℕ)

/-- C5 (witness): the concrete 2×2, patch-size-1 embedding yields exactly
the class token at index 0 and the row-major patch tokens at indices 1..4,
with the positional table added. -/
theorem patchEmbed_rowmajor_witness :
    (0 < 1 ∧ 0 < 2 ∧ w5PatchParams.dropMask 0 0 = 1) ∧
    patchEmbedForward w5PatchParams (2 * 1) (2 * 1) xGrid =
      some (fun (t : Fin 5) (e : Fin 1) =>
        (if (t : ℕ) = 0 then w5PatchParams.classTok e
         else w5PatchParams.convB e + ∑ c : Fin 1, ∑ a : Fin 1, ∑ b : Fin 1,
           w5PatchParams.convW e c a b *
             xGrid c ((((t : ℕ) - 1) / 2) * 1 + (a : ℕ))
               ((((t : ℕ) - 1) % 2) * 1 + (b : ℕ)))
        + w5PatchParams.posEnc t e) := by
  refine ⟨⟨Nat.one_pos, Nat.zero_lt_two, rfl⟩, ?_⟩
  exact patchEmbed_rowmajor w5PatchParams xGrid Nat.one_pos Nat.zero_lt_two
    (fun _ _ => rfl)

/-- Standard unmasked scaled-dot-product attention as the specification words
it: `softmax (Q·Kᵗ / sqrt d_key) · V`, no mask, no sentinel fill. -/
noncomputable def specStandardAttention {L D : ℕ} (q k v : Fin L → Fin D → ℝ)
    (i : Fin L) (d : Fin D) : ℝ :=
  ∑ j : Fin L,
    softmax (fun j' => (∑ x : Fin D, q i x * k j' x) / Real.sqrt (D : ℝ)) j *
      v j d

/-- C10: when every raw score is nonzero and the causal flag is false, the
mask is all-true, the sentinel fill is a no-op, and the attention core equals
standard unmasked scaled-dot-product attention. -/
theorem selfAttention_unmasked_refines_standard {L D : ℕ}
    (q k v : Fin L → Fin D → ℝ) (h : ∀ i j, rawScores q k i j ≠ 0) :
    selfAttentionForward q k v false = specStandardAttention q k v := by
  funext i d
  unfold selfAttentionForward specStandardAttention attnProbs
  have hms : maskedScores (rawScores q k) false i = rawScores q k i := by
    funext j
    unfold maskedScores
    rw [if_pos]
    rw [combinedMask_iff]
    exact ⟨h i j, fun hm => absurd hm (by simp)⟩
  rw [hms]
  rfl

/-- C10 (witness): on the concrete all-ones 2×1 query/key slice every raw
score is `1 / √1 ≠ 0`, and the core coincides with standard attention. -/
theorem selfAttention_unmasked_refines_standard_witness :
    rawScores onesQK onesQK 0 0 ≠ 0 ∧
    selfAttentionForward onesQK onesQK vUnit false =
      specStandardAttention onesQK onesQK vUnit := by
  have h : ∀ i j : Fin 2, rawScores onesQK onesQK i j ≠ 0 := by
    intro i j
    unfold rawScores onesQK
    rw [Fin.sum_univ_one, one_mul, Nat.cast_one, Real.sqrt_one, div_one]
    exact one_ne_zero
  exact ⟨h 0 0, selfAttention_unmasked_refines_standard onesQK onesQK vUnit h⟩

/-! ### Multi-head attention (`Multi_Headed_Attention`, lines 79–114) -/

/-- `Multi_Headed_Attention.__init__` (lines 80–91):
`assert embed_dim % n_heads == 0` runs in the constructor, before any
forward pass; on success the module records `d_key = embed_dim // n_heads`.
(A zero `n_heads` also dies on that line, with `ZeroDivisionError` from `%`.)
Returns `none` exactly when construction raises. -/
def multiHeadedAttentionInit (nHeads embedDim : ℕ) : Option ℕ :=
  if nHeads ≠ 0 ∧ embedDim % nHeads = 0 then some (embedDim / nHeads) else none

/-- C4: constructing multi-head attention with `embed_dim` not evenly
divisible by `n_heads` is a construction-time fatal error — the constructor
model returns `none`, so no forward pass exists to produce wrong shapes. -/
theorem mha_init_requires_divisibility (nHeads embedDim : ℕ)
    (h : embedDim % nHeads ≠ 0) :
    multiHeadedAttentionInit nHeads embedDim = none := by
  unfold multiHeadedAttentionInit
  rw [if_neg]
  intro hc
  exact h hc.2

/-- C4 (witness): `embed_dim = 100` with `n_heads = 8` (`100 % 8 = 4 ≠ 0`)
fails at construction. -/
theorem mha_init_requires_divisibility_witness :
    100 % 8 ≠ 0 ∧ multiHeadedAttentionInit 8 100 = none :=
  ⟨by norm_num, mha_init_requires_divisibility 8 100 (by norm_num)⟩

/-- `nn.Linear`: `y = W·x + b` applied along the last axis. -/
def linearMap {I O : ℕ} (W : Fin O → Fin I → ℝ) (b : Fin O → ℝ)
    (x : Fin I → ℝ) (o : Fin O) : ℝ :=
  (∑ i : Fin I, W o i * x i) + b o

/-- The learned projections of a constructed `Multi_Headed_Attention` with
`n_heads = Hh` and `d_key = dk` (so `embed_dim = Hh * dk`, the shape the
constructor's divisibility assert guarantees). -/
structure MHAParams (Hh dk : ℕ) where
  Wq : Fin (Hh * dk) → Fin (Hh * dk) → ℝ
  bq : Fin (Hh * dk) → ℝ
  Wk : Fin (Hh * dk) → Fin (Hh * dk) → ℝ
  bk : Fin (Hh * dk) → ℝ
  Wv : Fin (Hh * dk) → Fin (Hh * dk) → ℝ
  bv : Fin (Hh * dk) → ℝ

/-- Steps 1–2 of `Multi_Headed_Attention.forward` (lines 99–106): `.view` to
`[L, n_heads, d_key]` then transpose — head `h` of an `[L, embed_dim]` tensor
is the `[L, d_key]` slice at columns `h·d_key + d`. -/
def headSlice {L Hh dk : ℕ} (m : Fin L → Fin (Hh * dk) → ℝ) (h : Fin Hh)
    (l : Fin L) (d : Fin dk) : ℝ :=
  m l ⟨(h : ℕ) * dk + (d : ℕ), by
    calc (h : ℕ) * dk + (d : ℕ) < ((h : ℕ) + 1) * dk := by
          rw [Nat.succ_mul]
          exact Nat.add_lt_add_left d.isLt _
      _ ≤ Hh * dk := Nat.mul_le_mul_right dk h.isLt⟩

/-- Step 4 of `Multi_Headed_Attention.forward` (lines 112–113): transpose
back and `.view` the heads flat again — column `e` of the result reads head
`e / d_key` at inner column `e % d_key`. -/
def concatHeads {L Hh dk : ℕ} (heads : Fin Hh → Fin L → Fin dk → ℝ)
    (l : Fin L) (e : Fin (Hh * dk)) : ℝ :=
  have hdk : 0 < dk := by
    rcases Nat.eq_zero_or_pos dk with h0 | h1
    · exact absurd e.isLt (by subst h0; simp)
    · exact h1
  heads ⟨(e : ℕ) / dk, (Nat.div_lt_iff_lt_mul hdk).mpr e.isLt⟩ l
    ⟨(e : ℕ) % dk, Nat.mod_lt _ hdk⟩

/-- `Multi_Headed_Attention.forward` (lines 93–114): project to Q/K/V, split
into heads, run the attention core per head, recombine.  `is_masked`
defaults to `False` exactly as in the source signature. -/
noncomputable def multiHeadedAttentionForward {L Hh dk : ℕ}
    (P : MHAParams Hh dk) (x : Fin L → Fin (Hh * dk) → ℝ)
    (isMasked : Bool := false) : Fin L → Fin (Hh * dk) → ℝ :=
  let q := fun l => linearMap P.Wq P.bq (x l)
  let k := fun l => linearMap P.Wk P.bk (x l)
  let v := fun l => linearMap P.Wv P.bv (x l)
  concatHeads (fun h =>
    selfAttentionForward (headSlice q h) (headSlice k h) (headSlice v h)
      isMasked)

/-! ### Residual + normalise, feed-forward, encoder blocks (lines 50–74,
204–223) -/

/-- `nn.LayerNorm(embed_dim)` with its default `eps = 1e-5`: per-token
zero-mean unit-variance normalisation, then the learned affine rescale. -/
noncomputable def layerNorm {E : ℕ} (g b : Fin E → ℝ) (x : Fin E → ℝ)
    (e : Fin E) : ℝ :=
  let mean := (∑ i : Fin E, x i) / (E : ℝ)
  let variance := (∑ i : Fin E, (x i - mean) ^ 2) / (E : ℝ)
  g e * ((x e - mean) / Real.sqrt (variance + 1e-5)) + b e

/-- `Add_and_Norm.forward` (lines 217–223): `self.norm(input + output)`. -/
noncomputable def addAndNorm {L E : ℕ} (g b : Fin E → ℝ)
    (inp out : Fin L → Fin E → ℝ) (l : Fin L) : Fin E → ℝ :=
  layerNorm g b (fun e => inp l e + out l e)

/-- C9: the residual+normalise sub-layer is commutative in its two
arguments — `Add_and_Norm(A, B) = Add_and_Norm(B, A)` — so the two argument
orders the encoder block uses (`(attention_out, x)` and `(x, ffn_out)`)
compute the same function of the unordered pair. -/
theorem addAndNorm_comm {L E : ℕ} (g b : Fin E → ℝ)
    (A B : Fin L → Fin E → ℝ) : addAndNorm g b A B = addAndNorm g b B A := by
  funext l
  unfold addAndNorm
  have hx : (fun e => A l e + B l e) = (fun e => B l e + A l e) := by
    funext e
    exact add_comm _ _
  rw [hx]

/-- `nn.GELU()` in its exact (non-approximate) form:
`gelu x = x * Φ(x)`, `Φ` the standard normal CDF. -/
noncomputable def gelu (x : ℝ) : ℝ :=
  x * ((ProbabilityTheory.gaussianReal 0 1) (Set.Iic x)).toReal

/-- The two dense layers of `Position_wise_ffn` (lines 204–215). -/
structure FFNParams (E dffn : ℕ) where
  W1 : Fin dffn → Fin E → ℝ
  b1 : Fin dffn → ℝ
  W2 : Fin E → Fin dffn → ℝ
  b2 : Fin E → ℝ

/-- `Position_wise_ffn.forward` (lines 211–215): linear → GELU → linear,
applied independently at every token position. -/
noncomputable def positionWiseFFN {E dffn : ℕ} (P : FFNParams E dffn)
    (x : Fin E → ℝ) : Fin E → ℝ :=
  linearMap P.W2 P.b2 (fun f => gelu (linearMap P.W1 P.b1 x f))

/-- One constructed `Encoder_Block` (lines 51–64): attention projections,
the two dropout decision masks (all ones at inference), the two layer-norm
affine pairs and the feed-forward weights. -/
structure EncoderBlockParams (L Hh dk dffn : ℕ) where
  attn : MHAParams Hh dk
  drop1 : Fin L → Fin (Hh * dk) → ℝ
  ln1g : Fin (Hh * dk) → ℝ
  ln1b : Fin (Hh * dk) → ℝ
  ffn : FFNParams (Hh * dk) dffn
  drop2 : Fin L → Fin (Hh * dk) → ℝ
  ln2g : Fin (Hh * dk) → ℝ
  ln2b : Fin (Hh * dk) → ℝ

/-- `Encoder_Block.forward` (lines 66–74): attention (with the source's
default `is_masked`, i.e. no causal mask) → dropout →
`add_and_norm1(attention, x)` → feed-forward → dropout →
`add_and_norm2(x, ffn)`. -/
noncomputable def encoderBlockForward {L Hh dk dffn : ℕ}
    (P : EncoderBlockParams L Hh dk dffn) (x : Fin L → Fin (Hh * dk) → ℝ) :
    Fin L → Fin (Hh * dk) → ℝ :=
  let a := multiHeadedAttentionForward P.attn x
  let a' := fun l e => P.drop1 l e * a l e
  let x1 := addAndNorm P.ln1g P.ln1b a' x
  let f := fun l => positionWiseFFN P.ffn (x1 l)
  let f' := fun l e => P.drop2 l e * f l e
  addAndNorm P.ln2g P.ln2b x1 f'

/-- `Encoder.forward` (lines 45–48): sequentially fold the block list over
the input, one block at a time. -/
noncomputable def encoderForward {L Hh dk dffn : ℕ}
    (blocks : List (EncoderBlockParams L Hh dk dffn))
    (x : Fin L → Fin (Hh * dk) → ℝ) : Fin L → Fin (Hh * dk) → ℝ :=
  blocks.foldl (fun acc P => encoderBlockForward P acc) x

/-! ### The full model (`Transformer`, lines 7–36) -/

/-- All parameters of a constructed `Transformer`: the patch embedding
(built for side length `L0`, hence `(L0/p)² + 1` tokens), the encoder
blocks, and the MLP classification head. -/
structure TransformerParams (p C Hh dk dffn numClasses L0 : ℕ) where
  patch : PatchEmbedParams p C (Hh * dk) ((L0 / p) ^ 2 + 1)
  blocks : List (EncoderBlockParams ((L0 / p) ^ 2 + 1) Hh dk dffn)
  mlpW : Fin numClasses → Fin (Hh * dk) → ℝ
  mlpB : Fin numClasses → ℝ

/-- `Transformer.forward` (lines 28–36), one batch element (every torch
operation involved acts independently per batch element): patch embedding,
encoder stack, extract token row 0 (the class token), `tanh`, final linear
head to `num_classes` logits.  The second argument `target` is accepted —
as in the source signature — and never read. -/
noncomputable def transformerForward {p C Hh dk dffn numClasses L0 : ℕ}
    {τ : Type} (P : TransformerParams p C Hh dk dffn numClasses L0)
    (H W : ℕ) (x : Fin C → ℕ → ℕ → ℝ) (target : τ) :
    Option (Fin numClasses → ℝ) :=
  (patchEmbedForward P.patch H W x).map (fun tokens =>
    let enc := encoderForward P.blocks tokens
    linearMap P.mlpW P.mlpB (fun e => Real.tanh (enc ⟨0, Nat.succ_pos _⟩ e)))

/-- One encoder block as §4.6 of the specification words it, with the causal
flag written out as `false`: attention (not causal) → dropout →
residualNorm(attn_out, x) → ffn → dropout → residualNorm(x', ffn_out). -/
noncomputable def specEncoderBlock {L Hh dk dffn : ℕ}
    (P : EncoderBlockParams L Hh dk dffn) (x : Fin L → Fin (Hh * dk) → ℝ) :
    Fin L → Fin (Hh * dk) → ℝ :=
  let attnOut := multiHeadedAttentionForward P.attn x false
  let x1 := addAndNorm P.ln1g P.ln1b
    (fun l e => P.drop1 l e * attnOut l e) x
  addAndNorm P.ln2g P.ln2b x1
    (fun l e => P.drop2 l e * positionWiseFFN P.ffn (x1 l) e)

/-- The classification path as §4.7 of the specification words it: apply the
encoder stack (every block with causal flag `false`), extract row 0 (the
class token), apply the bounded squashing nonlinearity `tanh`, then the
final linear map to `num_classes` logits.  No target input. -/
noncomputable def specClassifierForward {p C Hh dk dffn numClasses L0 : ℕ}
    (P : TransformerParams p C Hh dk dffn numClasses L0) (H W : ℕ)
    (x : Fin C → ℕ → ℕ → ℝ) : Option (Fin numClasses → ℝ) :=
  (patchEmbedForward P.patch H W x).map (fun tokens =>
    let encoded := P.blocks.foldl (fun acc B => specEncoderBlock B acc) tokens
    linearMap P.mlpW P.mlpB (fun e => Real.tanh (encoded ⟨0, Nat.succ_pos _⟩ e)))

/-- C6: the full forward pass is exactly the spec's classification path —
encoder stack, row 0 (class token), bounded squashing nonlinearity, final
linear map to `[num_classes]` logits — and the causal flag reaching the
attention core is `false` in every block (the spec-side path passes `false`
explicitly everywhere). -/
theorem transformer_forward_classification_path
    {p C Hh dk dffn numClasses L0 : ℕ} {τ : Type}
    (P : TransformerParams p C Hh dk dffn numClasses L0) (H W : ℕ)
    (x : Fin C → ℕ → ℕ → ℝ) (target : τ) :
    transformerForward P H W x target = specClassifierForward P H W x := by
  unfold transformerForward specClassifierForward encoderForward
  rfl

/-- C8: the `target` argument of `Transformer.forward` has no effect — for
the same parameters (including dropout decisions) and image, any two target
values give identical logits. -/
theorem transformer_forward_ignores_target
    {p C Hh dk dffn numClasses L0 : ℕ} {τ : Type}
    (P : TransformerParams p C Hh dk dffn numClasses L0) (H W : ℕ)
    (x : Fin C → ℕ → ℕ → ℝ) (t1 t2 : τ) :
    transformerForward P H W x t1 = transformerForward P H W x t2 := rfl

end BasicTransformer
